import Mathlib

/-!
Verification of the safaribooks book-assembly pipeline (Go) against its
natural-language specification.  Go strings are modelled as lists of
characters (`Str`); the Go standard-library string helpers used by the
repository (`strings.Contains`, `strings.HasPrefix`, `strings.ReplaceAll`,
`strings.TrimSpace`, `path.Base`, ...) are translated below, and calls into
`net/url` (`url.Parse`) are kept abstract as function parameters, since that
parser is an external library: every theorem quantifying over those
parameters holds for the real parser in particular.
-/

/-- Go `string`, modelled as its sequence of characters. -/
abbrev Str := List Char

/-- Go `strings.HasPrefix(s, pre)` (argument order: pattern first). -/
def isPrefixOfL : Str → Str → Bool
  | [], _ => true
  | _ :: _, [] => false
  | a :: as, b :: bs => if a = b then isPrefixOfL as bs else false

/-- Go `strings.HasSuffix(s, suf)` (argument order: pattern first). -/
def isSuffixOfL (suf s : Str) : Bool :=
  isPrefixOfL suf.reverse s.reverse

/-- Go `strings.Contains(s, pat)`: some suffix of `s` starts with `pat`. -/
def containsSubstr : Str → Str → Bool
  | [], pat => isPrefixOfL pat []
  | c :: rest, pat => isPrefixOfL pat (c :: rest) || containsSubstr rest pat

/-- Go `strings.Replace` with empty pattern: `new` is inserted at the start
and after every character (`Replace("abc","","X") = "XaXbXcX"`). -/
def replaceEmptyPat (s new : Str) : Str :=
  new ++ List.flatten (s.map (fun c => c :: new))

/-- Recursion core of `strings.ReplaceAll` for a non-empty pattern: leftmost,
non-overlapping.  `fuel` only bounds the recursion; `fuel = s.length`
always suffices because every step consumes at least one character. -/
def replaceAllGo (fuel : Nat) (s old new : Str) : Str :=
  match fuel, s with
  | _, [] => []
  | 0, s => s
  | fuel + 1, c :: rest =>
    if isPrefixOfL old (c :: rest) then
      new ++ replaceAllGo fuel (List.drop (old.length - 1) rest) old new
    else
      c :: replaceAllGo fuel rest old new

/-- Go `strings.ReplaceAll(s, old, new)`. -/
def replaceAll (s old new : Str) : Str :=
  if old = [] then replaceEmptyPat s new else replaceAllGo s.length s old new

/-- ASCII piece of Go `unicode.ToLower`, the only piece the repository's
case-insensitive checks (`cover`, image extensions) can observe. -/
def goToLowerChar (c : Char) : Char :=
  if 65 ≤ c.toNat ∧ c.toNat ≤ 90 then Char.ofNat (c.toNat + 32) else c

/-- Go `strings.ToLower` (ASCII model, see `goToLowerChar`). -/
def toLowerStr (s : Str) : Str := s.map goToLowerChar

/-- Whitespace class of Go `unicode.IsSpace` (ASCII and Latin-1 part). -/
def goIsSpace (c : Char) : Bool :=
  c = ' ' || c = Char.ofNat 9 || c = Char.ofNat 10 || c = Char.ofNat 11 ||
  c = Char.ofNat 12 || c = Char.ofNat 13 || c = Char.ofNat 133 || c = Char.ofNat 160

/-- Go `strings.TrimSpace`. -/
def trimSpace (s : Str) : Str :=
  ((s.dropWhile goIsSpace).reverse.dropWhile goIsSpace).reverse

/-- Go `strings.TrimSuffix(s, suf)`: drops one copy of the suffix if present. -/
def trimSuffixL (s suf : Str) : Str :=
  if isSuffixOfL suf s then s.take (s.length - suf.length) else s

/-- Go `strings.TrimPrefix(s, pre)`: drops one copy of the prefix if present. -/
def trimPrefixL (s pre : Str) : Str :=
  if isPrefixOfL pre s then s.drop pre.length else s

/-- Go `strings.Trim(s, "/")`: slashes removed from both ends. -/
def trimSlashes (s : Str) : Str :=
  ((s.dropWhile (· = '/')).reverse.dropWhile (· = '/')).reverse

/-- Index of the first occurrence of a character, Go `strings.Index` for a
one-character pattern (`none` for Go's `-1`). -/
def charIndexOf (c : Char) : Str → Option Nat
  | [] => none
  | d :: rest => if d = c then some 0 else (charIndexOf c rest).map (· + 1)

/-- The dot `"."` returned by `path.Base` on an empty path. -/
def sDot : Str := (".").data

/-- The slash `"/"`. -/
def sSlash : Str := ("/").data

/-- Go `path.Base`: empty path gives `"."`; trailing slashes are stripped;
the last path element is returned, `"/"` when the path is all slashes. -/
def pathBase (p : Str) : Str :=
  if p = [] then sDot
  else
    let q := (p.reverse.dropWhile (· = '/')).reverse
    let r := (q.reverse.takeWhile (fun c => ¬ (c = '/'))).reverse
    if r = [] then sSlash else r

/-- Model of `utils.StripQueryFragment` (pkg/utils/utils.go): the part of the link
before the first `?` or `#`. -/
def stripQueryFragment (link : Str) : Str :=
  link.takeWhile (fun c => ¬ (c = '?' ∨ c = '#'))

/-- Model of `utils.BaseName` (pkg/utils/utils.go): last path segment of the link
stripped of query/fragment; empty for `"."` and `"/"`. -/
def baseName (link : Str) : Str :=
  let name := pathBase (stripQueryFragment link)
  if name = sDot ∨ name = sSlash then [] else name

/-- Model of `utils.FilenameFromURL` (pkg/utils/utils.go).  `parsePath` stands for
`url.Parse` (external `net/url` library), returning the parsed `Path`
field on success. -/
def filenameFromURL (parsePath : Str → Option Str) (raw : Str) : Str :=
  if raw = [] then []
  else
    let fromParse : Option Str :=
      match parsePath raw with
      | some p =>
        let name := pathBase p
        if name ≠ [] ∧ name ≠ sDot ∧ name ≠ sSlash then some name else none
      | none => none
    match fromParse with
    | some name => name
    | none => trimSlashes (pathBase (stripQueryFragment raw))

/-- Characters replaced by `_` in `utils.EscapeDirname` (pkg/utils/utils.go):
`~ # % & * { } \ < > ? / backtick apostrophe double-quote | + :`. -/
def escapeChars : List Char :=
  ['~', '#', '%', '&', '*', Char.ofNat 123, Char.ofNat 125, Char.ofNat 92,
   '<', '>', '?', '/', Char.ofNat 96, Char.ofNat 39, Char.ofNat 34,
   '|', '+', ':']

/-- Model of `utils.EscapeDirname` (pkg/utils/utils.go): when a `:` occurs at an index
greater than 15 the name is truncated there first, then every character of
`escapeChars` becomes `_`. -/
def escapeDirname (name : Str) : Str :=
  let name1 :=
    match charIndexOf ':' name with
    | some i => if i > 15 then name.take i else name
    | none => name
  name1.map (fun c => if c ∈ escapeChars then '_' else c)

/-! ## Chapter transformer (internal/html/parser.go) -/

/-- The literal `"mailto:"`. -/
def sMailto : Str := ("mailto:").data

/-- The literal `"cover"`. -/
def sCover : Str := ("cover").data

/-- The literal `"images"`. -/
def sImages : Str := ("images").data

/-- The literal `"graphics"`. -/
def sGraphics : Str := ("graphics").data

/-- The literal `"Images/"`. -/
def sImagesSlash : Str := ("Images/").data

/-- The literal `".html"`. -/
def sHtmlExt : Str := (".html").data

/-- The literal `".xhtml"`. -/
def sXhtmlExt : Str := (".xhtml").data

/-- Image extensions recognised by `isImageLink` (internal/html/parser.go). -/
def imageExts : List Str :=
  [(".jpg").data, (".jpeg").data, (".png").data, (".gif").data,
   (".webp").data, (".svg").data]

/-- Model of `isImageLink` (internal/html/parser.go): the lowercased link ends in one
of the recognised image extensions. -/
def isImageLink (raw : Str) : Bool :=
  imageExts.any (fun ext => isSuffixOfL ext (toLowerStr raw))

/-- Mutable state of one `html.Parser` instance: `cssIndex` maps a CSS URL to
its index, `cssList` keeps the URLs in registration order
(internal/html/parser.go, fields `cssIndex`/`cssList`). -/
structure ParserState where
  cssIndex : List (Str × Nat)
  cssList : List Str
deriving DecidableEq

/-- Lookup in the `cssIndex` map (association-list model of the Go map;
keys are unique because insertion happens only on a failed lookup). -/
def lookupIdx (u : Str) : List (Str × Nat) → Option Nat
  | [] => none
  | p :: rest => if p.1 = u then some p.2 else lookupIdx u rest

/-- Model of `Parser.ensureCSS` (internal/html/parser.go): an empty URL gets index 0
without being registered; a known URL returns its stored index; a new URL is
appended and receives index `len(cssList)`. -/
def ensureCSS (st : ParserState) (url : Str) : Nat × ParserState :=
  if url = [] then (0, st)
  else
    match lookupIdx url st.cssIndex with
    | some i => (i, st)
    | none =>
      (st.cssList.length,
       ⟨st.cssIndex ++ [(url, st.cssList.length)], st.cssList ++ [url]⟩)

/-- Sequential registration of a chapter's stylesheet URLs through
`ensureCSS`, as performed by `Parser.ParseChapter` (internal/html/parser.go):
returns the emitted indices and the final parser state. -/
def registerAll (st : ParserState) : List Str → List Nat × ParserState
  | [] => ([], st)
  | u :: us =>
    let p := ensureCSS st u
    let rest := registerAll p.2 us
    (p.1 :: rest.1, rest.2)

/-- Indices emitted for one chapter.  `Downloader.downloadChapters`
(src/unnamed/part_000) constructs a fresh `html.NewParser` for every chapter
worker, so each chapter starts from the empty registry. -/
def chapterCSSIndices (urls : List Str) : List Nat :=
  (registerAll ⟨[], []⟩ urls).1

/-- Registry contents (`cssList`) after one chapter, from the same fresh
parser. -/
def chapterCSSList (urls : List Str) : List Str :=
  (registerAll ⟨[], []⟩ urls).2.cssList

/-- Indices emitted across a whole book run: one fresh parser per chapter
(`parser := html.NewParser(...)` inside the per-chapter goroutine of
`Downloader.downloadChapters`, src/unnamed/part_000). -/
def bookCSSIndices (chapters : List (List Str)) : List (List Nat) :=
  chapters.map chapterCSSIndices

/-- Model of `Parser.linkReplace` (internal/html/parser.go).  `isAbs` stands for
`utils.IsAbsoluteURL` and `parsePath` for the `url.Parse` inside
`utils.FilenameFromURL` (both resting on the external `net/url` parser). -/
def linkReplace (isAbs : Str → Bool) (parsePath : Str → Option Str)
    (link0 : Str) : Str :=
  let link := trimSpace link0
  if link = [] ∨ isPrefixOfL sMailto link then link
  else if ¬ (isAbs link = true) then
    let lower := toLowerStr link
    if containsSubstr lower sCover || containsSubstr lower sImages ||
        containsSubstr lower sGraphics || isImageLink link then
      let name := baseName link
      let name2 := if name = [] then filenameFromURL parsePath link else name
      if name2 = [] then link else sImagesSlash ++ name2
    else replaceAll link sHtmlExt sXhtmlExt
  else link

/-- Link-rewrite rule as the specification words it (spec §4.3, claim C3),
for an attribute value already reduced to its trimmed form: empty, `mailto:`
and absolute values unchanged; image-like relatives to `Images/<basename>`
with the stated fallbacks; other relatives with `.html` replaced by
`.xhtml`. -/
def claimLinkRewrite (isAbs : Str → Bool) (parsePath : Str → Option Str)
    (v : Str) : Str :=
  if v = [] then v
  else if isPrefixOfL sMailto v then v
  else if isAbs v = true then v
  else if containsSubstr (toLowerStr v) sCover ||
      containsSubstr (toLowerStr v) sImages ||
      containsSubstr (toLowerStr v) sGraphics || isImageLink v then
    let name := baseName v
    let name2 := if name = [] then filenameFromURL parsePath v else name
    if name2 = [] then v else sImagesSlash ++ name2
  else replaceAll v sHtmlExt sXhtmlExt

/-- Constant `baseStyleCSS` (internal/html/parser.go). -/
def baseStyleCSSs : Str :=
  ("body\x7bmargin:1em;background-color:transparent!important;\x7d#sbo-rt-content *\x7btext-indent:0pt!important;\x7d#sbo-rt-content .bq\x7bmargin-right:1em!important;\x7d").data

/-- Constant `kindleCSS` (internal/html/parser.go). -/
def kindleCSSs : Str :=
  ("#sbo-rt-content *\x7bword-wrap:break-word!important;word-break:break-word!important;\x7d#sbo-rt-content table,#sbo-rt-content pre\x7boverflow-x:unset!important;overflow:unset!important;overflow-y:unset!important;white-space:pre-wrap!important;\x7d").data

/-- Field `baseHTMLStyle` as computed by `html.NewParser` (internal/html/parser.go):
`baseStyle := baseStyleCSS; if !kindleMode { baseStyle += kindleCSS }`. -/
def newParserStyle (kindleMode : Bool) : Str :=
  if !kindleMode then baseStyleCSSs ++ kindleCSSs else baseStyleCSSs

/-- Part of `baseHTMLTemplate` before the first `%s` (internal/html/parser.go). -/
def tplHead : Str :=
  ("<!DOCTYPE html>\n<html lang=\"en\" xml:lang=\"en\" xmlns=\"http://www.w3.org/1999/xhtml\" xmlns:xsi=\"http://www.w3.org/2001/XMLSchema-instance\" xsi:schemaLocation=\"http://www.w3.org/2002/06/xhtml2/ http://www.w3.org/MarkUp/SCHEMA/xhtml2.xsd\" xmlns:epub=\"http://www.idpf.org/2007/ops\">\n<head>\n").data

/-- Part of `baseHTMLTemplate` between the first and second `%s`: it opens the
page's `<style type="text/css">` block. -/
def tplStyleOpen : Str := ("\n<style type=\"text/css\">").data

/-- Part of `baseHTMLTemplate` between the second and third `%s`: it closes
the style block, the head, and opens the body. -/
def tplStyleClose : Str := ("</style></head>\n<body>").data

/-- Part of `baseHTMLTemplate` after the third `%s`. -/
def tplTail : Str := ("</body>\n</html>").data

/-- The final page emitted by `Parser.ParseChapter` (internal/html/parser.go):
`fmt.Sprintf(baseHTMLTemplate, pageCSS, p.baseHTMLStyle, xhtml)` with the
parser built by `html.NewParser(bookURL, kindleMode)`. -/
def chapterPageHTML (kindleMode : Bool) (pageCSS xhtml : Str) : Str :=
  tplHead ++ pageCSS ++ tplStyleOpen ++ newParserStyle kindleMode ++
    tplStyleClose ++ xhtml ++ tplTail

/-! ## Data model (internal/models) and HTTP client (internal/http/client.go) -/

/-- Structure `models.Chapter` (src/unnamed/part_001), restricted to the fields the
pipeline reads.  `stylesheets` models `Stylesheets[].URL`. -/
structure Chapter where
  title : Str
  filename : Str
  content : Str
  assetBaseURL : Str
  images : List Str
  stylesheets : List Str
  siteStyles : List Str
deriving DecidableEq

/-- Chapter with a title and a filename and nothing else, for concrete
examples. -/
def mkChapter (title filename : Str) : Chapter :=
  ⟨title, filename, [], [], [], [], []⟩

/-- One page of `models.ChapterResponse` (src/unnamed/part_001): the
`results` array and the `next` cursor. -/
structure ChapterPage where
  results : List Chapter
  next : Option Str
deriving DecidableEq

/-- The Go condition `payload.Next != nil && *payload.Next != ""` of
`Client.GetBookChapters` (internal/http/client.go). -/
def hasNextCursor (pg : ChapterPage) : Bool :=
  match pg.next with
  | some s => !s.isEmpty
  | none => false

/-- Cover test of `Client.GetBookChapters` (internal/http/client.go): the
lowercased filename or title contains `cover`. -/
def isCoverChapter (ch : Chapter) : Bool :=
  containsSubstr (toLowerStr ch.filename) sCover ||
    containsSubstr (toLowerStr ch.title) sCover

/-- Error message of `Client.GetBookChapters` for a page with no results. -/
def errNoChapters : Str := ("API: unable to retrieve book chapters").data

/-- Model of `Client.GetBookChapters` (internal/http/client.go), over the sequence of
pages the server returns: each fetched page with an empty `results` array
aborts the whole call; otherwise the page's cover chapters are appended
first, then the remainder, and the walk follows the `next` cursor. -/
def getBookChapters : List ChapterPage → Except Str (List Chapter)
  | [] => .ok []
  | pg :: rest =>
    if pg.results = [] then .error errNoChapters
    else
      let promoted := pg.results.filter isCoverChapter ++
        pg.results.filter (fun ch => !isCoverChapter ch)
      if hasNextCursor pg then
        match getBookChapters rest with
        | .error e => .error e
        | .ok tail => .ok (promoted ++ tail)
      else .ok promoted

/-- Every page except possibly the last carries a non-empty `next` cursor, so
the whole list is walked. -/
def allNextSet : List ChapterPage → Bool
  | [] => true
  | pg :: rest => (rest.isEmpty || hasNextCursor pg) && allNextSet rest

/-- The expired-subscription marker `user_type":"Expired"` checked by
`ensureAuthenticated` (internal/http/client.go). -/
def expiredMarker : Str := ("user_type\":\"Expired\"").data

/-- An HTTP response as `ensureAuthenticated` observes it: final status code
and body. -/
structure RestyResponse where
  statusCode : Nat
  body : Str
deriving DecidableEq

/-- Model of `ensureAuthenticated` (internal/http/client.go), given the profile
response: an error for a status other than 200, an error for a body
containing the expired marker, success otherwise. -/
def ensureAuthenticatedErr (resp : RestyResponse) : Option Str :=
  if resp.statusCode ≠ 200 then
    some (("authentication issue: expected 200").data)
  else if containsSubstr resp.body expiredMarker then
    some (("authentication issue: account subscription expired").data)
  else none

/-! ## Downloader (src/unnamed/part_000) -/

/-- The size tokens of `Downloader.generateCoverURLVariants`
(src/unnamed/part_000, `sizeVariants`), in source order. -/
def sizeVariants : List Str :=
  [("1200w").data, ("800w").data, ("600w").data, ("500w").data,
   ("400w").data, ("200w").data, ("large").data, ("medium").data,
   ("small").data, ("thumb").data]

/-- The literal `"600w"`. -/
def s600w : Str := ("600w").data

/-- The literal `"/600w/"`. -/
def s600wSeg : Str := ("/600w/").data

/-- Model of `Downloader.generateCoverURLVariants` (src/unnamed/part_000): the first
size token contained in the URL is replaced (everywhere) by `600w` and the
substituted URL is tried before the original; with no token, `/600w/` is
appended to the URL stripped of one trailing slash. -/
def generateCoverURLVariants (coverURL : Str) : List Str :=
  match sizeVariants.find? (fun t => containsSubstr coverURL t) with
  | some t => [replaceAll coverURL t s600w, coverURL]
  | none => [trimSuffixL coverURL sSlash ++ s600wSeg, coverURL]

/-- Size-token list as claim C6 states it (spec §4.5): the code's list with
`600w-proxy` inserted after `600w`. -/
def claimSizeTokens : List Str :=
  [("1200w").data, ("800w").data, ("600w").data, ("600w-proxy").data,
   ("500w").data, ("400w").data, ("200w").data, ("large").data,
   ("medium").data, ("small").data, ("thumb").data]

/-- Cover-variant generation as claim C6 states it, over the claim's token
list (with the no-token branch as the code builds it). -/
def claimCoverVariants (coverURL : Str) : List Str :=
  match claimSizeTokens.find? (fun t => containsSubstr coverURL t) with
  | some t => [replaceAll coverURL t s600w, coverURL]
  | none => [trimSuffixL coverURL sSlash ++ s600wSeg, coverURL]

/-- The literal `"/api/v2/"` tested against the chapter content by
`Downloader.resolveImageURL`. -/
def sApiV2 : Str := ("/api/v2/").data

/-- Model of `Downloader.resolveImageURL` (src/unnamed/part_000): when the chapter's
raw content mentions `/api/v2/`, the image URL is rebuilt against the
`/api/v2/epubs/urn:orm:book:<bookID>/files` base; otherwise it is resolved
against the chapter's asset-base URL through `utils.ResolveURL`, modelled by
the abstract `resolve`. -/
def resolveImageURL (resolve : Str → Str → Str) (siteURL bookID : Str)
    (ch : Chapter) (img : Str) : Str :=
  if containsSubstr ch.content sApiV2 then
    let chapterBase := ("https://").data ++ siteURL ++
      ("/api/v2/epubs/urn:orm:book:").data ++ bookID ++ ("/files").data
    trimSuffixL chapterBase sSlash ++ sSlash ++ trimPrefixL img sSlash
  else resolve ch.assetBaseURL img

/-- Destination paths (relative to the book root) written by
`Downloader.downloadAssets` (src/unnamed/part_000): one per chapter image
with a resolvable URL and a derivable filename, under `OEBPS/Images/`.
The function downloads nothing else — in particular no stylesheet. -/
def downloadAssetDests (resolve : Str → Str → Str)
    (parsePath : Str → Option Str) (siteURL bookID : Str)
    (ch : Chapter) : List Str :=
  ch.images.filterMap (fun img =>
    let url := resolveImageURL resolve siteURL bookID ch img
    if url = [] then none
    else
      let filename := filenameFromURL parsePath url
      if filename = [] then none
      else some (("OEBPS/Images/").data ++ filename))

/-- Sequential model of `Downloader.downloadChapters` +
`Downloader.downloadChapter` (src/unnamed/part_000): every chapter is
processed (`proc` abstracts fetch+parse); a success writes
`OEBPS/<filename with .html → .xhtml>`; the first error is kept and
returned after all chapters are processed.  No duplicate-filename check
exists in the source. -/
def downloadChaptersRun (proc : Chapter → Except Str Unit)
    (chapters : List Chapter) : List Str × Option Str :=
  chapters.foldl
    (fun acc ch =>
      match proc ch with
      | .ok _ => (acc.1 ++ [replaceAll ch.filename sHtmlExt sXhtmlExt], acc.2)
      | .error e =>
        (acc.1, match acc.2 with | some e0 => some e0 | none => some e))
    ([], none)

/-- The literal `" ("`. -/
def sSpaceOpenParen : Str := (" (").data

/-- The literal `")"`. -/
def sCloseParen : Str := (")").data

/-- Directory name built by `Downloader.createBookDirectory`
(src/unnamed/part_000): the sanitized title (or the book id when that is
empty) is cut at its first comma by `strings.Split(title, ",")[0]`, then
`" (<bookID>)"` is appended. -/
def bookDirName (bookID title : Str) : Str :=
  let t := escapeDirname title
  let t2 := if t = [] then bookID else t
  let clean := t2.takeWhile (fun c => ¬ (c = ','))
  clean ++ sSpaceOpenParen ++ bookID ++ sCloseParen

deriving instance DecidableEq for Except

/-! ## Derived notions used to state the registry properties -/

/-- Position of the first occurrence of `u` (length of the list when `u` is
absent). -/
def posOf (u : Str) : List Str → Nat
  | [] => 0
  | v :: rest => if v = u then 0 else posOf u rest + 1

/-- Append-if-absent fold: the distinct elements of `urls` in first-occurrence
order, appended after `acc`.  This is exactly how `ensureCSS` grows
`cssList`. -/
def dedupAppend (acc : List Str) (urls : List Str) : List Str :=
  urls.foldl (fun a u => if u ∈ a then a else a ++ [u]) acc

/-- Consistency of a parser state: the `cssIndex` map sends a URL present in
`cssList` to its position there and knows no other URL. -/
def StateOK (st : ParserState) : Prop :=
  ∀ u : Str, lookupIdx u st.cssIndex =
    if u ∈ st.cssList then some (posOf u st.cssList) else none

/-! ## Concrete sample data for the seed scenarios -/

/-- Sample instance of the abstract `utils.IsAbsoluteURL`: scheme-and-host
detection restricted to `http://`/`https://` URLs, which agrees with the
real `net/url`-based check on every concrete link appearing below. -/
def urlIsAbsSample (s : Str) : Bool :=
  isPrefixOfL (("http://").data) s || isPrefixOfL (("https://").data) s

/-- Sample instance of the abstract `url.Parse` path extraction: the raw
string stripped of query and fragment, which agrees with the real parser on
the plain relative links appearing below. -/
def urlParseSample (s : Str) : Option Str := some (stripQueryFragment s)

/-- A chapter that references one stylesheet and no image (scenario for
claim C2). -/
def chWithStylesheet : Chapter :=
  ⟨("Styled chapter").data, ("ch01.html").data, ("<div></div>").data,
   ("https://x/").data, [], [("https://x/a.css").data], []⟩

/-- Scenario S5, first page: chapters `a` and `b`, `b` being a cover. -/
def s5PageOne : ChapterPage :=
  ⟨[mkChapter (("Intro A").data) (("a.html").data),
    mkChapter (("B").data) (("b-cover.html").data)], some (("next-url").data)⟩

/-- Scenario S5, second page: chapters `c` (a cover by title) and `d`. -/
def s5PageTwo : ChapterPage :=
  ⟨[mkChapter (("Cover c").data) (("c.html").data),
    mkChapter (("D").data) (("d.html").data)], none⟩

/-- Scenario S5: the two pages in order. -/
def s5Pages : List ChapterPage := [s5PageOne, s5PageTwo]

/-! ## Helper lemmas -/

/-- A list is a prefix of itself followed by anything. -/
lemma isPrefixOfL_append (p q : Str) : isPrefixOfL p (p ++ q) = true := by
  induction p with
  | nil => rfl
  | cons a as ih => simpa [isPrefixOfL] using ih

/-- Prefix order is transitive. -/
lemma isPrefixOfL_trans :
    ∀ p t s : Str, isPrefixOfL p t = true → isPrefixOfL t s = true →
      isPrefixOfL p s = true := by
  intro p
  induction p with
  | nil => intro t s _ _; rfl
  | cons a as ih =>
    intro t s h1 h2
    cases t with
    | nil => simp [isPrefixOfL] at h1
    | cons b bs =>
      cases s with
      | nil => simp [isPrefixOfL] at h2
      | cons c cs =>
        by_cases hab : a = b
        · subst hab
          rw [isPrefixOfL, if_pos rfl] at h1
          by_cases hac : a = c
          · subst hac
            rw [isPrefixOfL, if_pos rfl] at h2
            rw [isPrefixOfL, if_pos rfl]
            exact ih bs cs h1 h2
          · rw [isPrefixOfL, if_neg hac] at h2
            exact absurd h2 (by simp)
        · rw [isPrefixOfL, if_neg hab] at h1
          exact absurd h1 (by simp)

/-- A string containing `t` contains every prefix of `t`. -/
lemma containsSubstr_mono (s p t : Str) (hp : isPrefixOfL p t = true)
    (h : containsSubstr s t = true) : containsSubstr s p = true := by
  induction s with
  | nil =>
    cases t with
    | nil =>
      cases p with
      | nil => rfl
      | cons a as => simp [isPrefixOfL] at hp
    | cons b bs => simp [containsSubstr, isPrefixOfL] at h
  | cons c rest ih =>
    rw [containsSubstr, Bool.or_eq_true] at h
    rw [containsSubstr, Bool.or_eq_true]
    rcases h with h | h
    · exact Or.inl (isPrefixOfL_trans p t (c :: rest) hp h)
    · exact Or.inr (ih h)

/-- Lemma: `takeWhile` keeps a list all of whose elements satisfy the predicate. -/
lemma takeWhile_of_all {α : Type} (p : α → Bool) :
    ∀ l : List α, (∀ c ∈ l, p c = true) → l.takeWhile p = l := by
  intro l
  induction l with
  | nil => intro _; rfl
  | cons a as ih =>
    intro h
    have ha : p a = true := h a (by simp)
    simp [List.takeWhile_cons, ha, ih (fun c hc => h c (by simp [hc]))]

/-- Every element produced by a `filterMap` whose results all satisfy `p`
satisfies `p`. -/
lemma all_of_filterMap {α β : Type} (f : α → Option β) (p : β → Bool)
    (h : ∀ x y, f x = some y → p y = true) :
    ∀ l : List α, (l.filterMap f).all p = true := by
  intro l
  induction l with
  | nil => rfl
  | cons x xs ih =>
    cases hf : f x with
    | none => simpa [List.filterMap_cons, hf] using ih
    | some y => simp [List.filterMap_cons, hf, h x y hf, ih]

/-- First-occurrence position is unchanged by appending on the right. -/
lemma posOf_append_of_mem (u : Str) (l l2 : List Str) (h : u ∈ l) :
    posOf u (l ++ l2) = posOf u l := by
  induction l with
  | nil => cases h
  | cons v rest ih =>
    by_cases hv : v = u
    · simp [posOf, hv]
    · have hu : u ∈ rest := by
        rcases List.mem_cons.mp h with h1 | h1
        · exact absurd h1.symm hv
        · exact h1
      simp [posOf, hv, ih hu]

/-- A fresh element appended on the right sits at position `l.length`. -/
lemma posOf_append_self (u : Str) (l : List Str) (h : u ∉ l) :
    posOf u (l ++ [u]) = l.length := by
  induction l with
  | nil => simp [posOf]
  | cons v rest ih =>
    simp only [List.mem_cons, not_or] at h
    have hv : ¬ v = u := fun he => h.1 he.symm
    simp [posOf, hv, ih h.2]

/-- Lookup in an association list extended on the right. -/
lemma lookupIdx_append (u : Str) (ix : List (Str × Nat)) (w : Str) (n : Nat) :
    lookupIdx u (ix ++ [(w, n)]) =
      match lookupIdx u ix with
      | some i => some i
      | none => if w = u then some n else none := by
  induction ix with
  | nil => simp [lookupIdx]
  | cons p rest ih =>
    by_cases hp : p.1 = u
    · simp [lookupIdx, hp]
    · simp [lookupIdx, hp, ih]

/-- Unfolding of `dedupAppend` over a cons cell. -/
lemma dedupAppend_cons (l : List Str) (u : Str) (us : List Str) :
    dedupAppend l (u :: us) = dedupAppend (if u ∈ l then l else l ++ [u]) us :=
  rfl

/-- Lemma: `dedupAppend` only ever appends: the accumulator is a prefix of the
result. -/
lemma dedupAppend_exists_ext (us : List Str) :
    ∀ l : List Str, ∃ ext, dedupAppend l us = l ++ ext := by
  induction us with
  | nil => intro l; exact ⟨[], by simp [dedupAppend]⟩
  | cons u us ih =>
    intro l
    rw [dedupAppend_cons]
    by_cases hm : u ∈ l
    · rw [if_pos hm]; exact ih l
    · rw [if_neg hm]
      obtain ⟨ext, he⟩ := ih (l ++ [u])
      exact ⟨u :: ext, by simp [he]⟩

/-- The empty parser state is consistent. -/
lemma stateOK_empty : StateOK ⟨[], []⟩ := by
  intro u
  simp [lookupIdx]

/-- Registering a fresh URL preserves consistency of the parser state. -/
lemma stateOK_insert (st : ParserState) (hOK : StateOK st) (u : Str)
    (hu : u ∉ st.cssList) :
    StateOK ⟨st.cssIndex ++ [(u, st.cssList.length)], st.cssList ++ [u]⟩ := by
  intro v
  show lookupIdx v (st.cssIndex ++ [(u, st.cssList.length)]) = _
  rw [lookupIdx_append, hOK v]
  by_cases hv : v ∈ st.cssList
  · have hvu : v ≠ u := fun he => hu (he ▸ hv)
    have hm : v ∈ st.cssList ++ [u] := List.mem_append_left _ hv
    simp [hv, hm, posOf_append_of_mem v st.cssList [u] hv]
  · by_cases he : v = u
    · subst he
      have hm : v ∈ st.cssList ++ [v] :=
        List.mem_append_right _ (by simp)
      simp [hv, hm, posOf_append_self v st.cssList hu]
    · have hm : v ∉ st.cssList ++ [u] := by
        simp [List.mem_append, hv, fun h => he h]
      have huv : ¬ u = v := fun h => he h.symm
      simp [hv, hm, huv]

/-- Full characterisation of sequential registration from a consistent
state: the emitted indices are the positions of the URLs in the final
deduplicated list, which is the accumulator extended in first-occurrence
order. -/
lemma registerAll_spec (urls : List Str) :
    ∀ st : ParserState, StateOK st → (∀ u ∈ urls, u ≠ []) →
      (registerAll st urls).1 =
        urls.map (fun u => posOf u (dedupAppend st.cssList urls)) ∧
      (registerAll st urls).2.cssList = dedupAppend st.cssList urls ∧
      StateOK (registerAll st urls).2 := by
  induction urls with
  | nil => intro st hOK _; exact ⟨rfl, rfl, hOK⟩
  | cons u us ih =>
    intro st hOK hne
    have hu : u ≠ [] := hne u (by simp)
    have hus : ∀ v ∈ us, v ≠ [] := fun v hv => hne v (by simp [hv])
    by_cases hm : u ∈ st.cssList
    · have hE : ensureCSS st u = (posOf u st.cssList, st) := by
        simp [ensureCSS, hu, hOK u, hm]
      have key : registerAll st (u :: us) =
          ((posOf u st.cssList) :: (registerAll st us).1,
           (registerAll st us).2) := by
        simp [registerAll, hE]
      have hd : dedupAppend st.cssList (u :: us) = dedupAppend st.cssList us := by
        rw [dedupAppend_cons, if_pos hm]
      obtain ⟨ih1, ih2, ih3⟩ := ih st hOK hus
      obtain ⟨ext, hext⟩ := dedupAppend_exists_ext us st.cssList
      refine ⟨?_, ?_, ?_⟩
      · rw [key, hd, List.map_cons, ih1, hext,
          posOf_append_of_mem u st.cssList ext hm]
      · rw [key, hd]; exact ih2
      · rw [key]; exact ih3
    · have hE : ensureCSS st u =
          (st.cssList.length,
           ⟨st.cssIndex ++ [(u, st.cssList.length)], st.cssList ++ [u]⟩) := by
        simp [ensureCSS, hu, hOK u, hm]
      have hOK2 : StateOK ⟨st.cssIndex ++ [(u, st.cssList.length)],
          st.cssList ++ [u]⟩ := stateOK_insert st hOK u hm
      have key : registerAll st (u :: us) =
          (st.cssList.length ::
            (registerAll ⟨st.cssIndex ++ [(u, st.cssList.length)],
              st.cssList ++ [u]⟩ us).1,
           (registerAll ⟨st.cssIndex ++ [(u, st.cssList.length)],
              st.cssList ++ [u]⟩ us).2) := by
        simp [registerAll, hE]
      have hd : dedupAppend st.cssList (u :: us) =
          dedupAppend (st.cssList ++ [u]) us := by
        rw [dedupAppend_cons, if_neg hm]
      obtain ⟨ih1, ih2, ih3⟩ := ih _ hOK2 hus
      obtain ⟨ext, hext⟩ := dedupAppend_exists_ext us (st.cssList ++ [u])
      have hmem : u ∈ st.cssList ++ [u] := List.mem_append_right _ (by simp)
      refine ⟨?_, ?_, ?_⟩
      · rw [key, hd, List.map_cons, ih1, hext,
          posOf_append_of_mem u (st.cssList ++ [u]) ext hmem,
          posOf_append_self u st.cssList hm]
      · rw [key, hd]; exact ih2
      · rw [key]; exact ih3

/-! ## Claim theorems -/

/-- C1 counterexample: the registry is per chapter, not per book.  A book
whose first chapter registers `a.css` and whose second chapter registers the
distinct URL `b.css` emits index 0 — hence the link `Styles/Style00.css` —
for both, so distinct URLs registered in different chapters do share an
index. -/
theorem c1_cross_chapter_shared_index :
    bookCSSIndices [[("a.css").data], [("b.css").data]] = [[0], [0]] ∧
    ("a.css").data ≠ ("b.css").data := by
  decide

/-- C1 (amended): stylesheet registration is per chapter — every chapter
worker builds a fresh parser, so a book run maps each chapter's URL list
independently.  Within one chapter, registration of non-empty URLs is
insertion-ordered and deduplicated: each registration returns the position
of its URL in the list of distinct URLs in first-occurrence order (so the
k-th distinct URL gets index k-1, and re-registering a URL returns its
existing index), and the final registry list is exactly that deduplicated
list. -/
theorem c1_per_chapter_registry (urls : List Str) (h : ∀ u ∈ urls, u ≠ []) :
    chapterCSSIndices urls =
      urls.map (fun u => posOf u (dedupAppend [] urls)) ∧
    chapterCSSList urls = dedupAppend [] urls ∧
    ∀ chapters : List (List Str),
      bookCSSIndices chapters = chapters.map chapterCSSIndices := by
  obtain ⟨h1, h2, _⟩ := registerAll_spec urls ⟨[], []⟩ stateOK_empty h
  exact ⟨h1, h2, fun _ => rfl⟩

/-- C1 witness: registering `A, B, A, C` in one chapter yields indices
`0, 1, 0, 2` (scenario S4, per chapter). -/
theorem c1_per_chapter_registry_witness :
    (∀ u ∈ [("a.css").data, ("b.css").data, ("a.css").data, ("c.css").data],
      u ≠ ([] : Str)) ∧
    chapterCSSIndices
        [("a.css").data, ("b.css").data, ("a.css").data, ("c.css").data] =
      [0, 1, 0, 2] := by
  refine ⟨by decide, ?_⟩
  rw [(c1_per_chapter_registry
    [("a.css").data, ("b.css").data, ("a.css").data, ("c.css").data]
    (by decide)).1]
  decide

/-- C5 counterexample: a 204 response with a clean body is a 2xx response
without the expired marker, yet the session check fails on it (the code
compares against 200 exactly), so "fails iff non-2xx or marker" is false. -/
theorem c5_not2xx_counterexample :
    ¬ (((ensureAuthenticatedErr ⟨204, []⟩).isSome = true) ↔
      ((204 < 200 ∨ 300 ≤ 204) ∨
        containsSubstr ([] : Str) expiredMarker = true)) := by
  decide

/-- C5 (amended): the startup session check fails if and only if the profile
response status differs from 200 exactly, or the body contains the
`user_type":"Expired"` marker. -/
theorem c5_auth_check_iff (resp : RestyResponse) :
    (ensureAuthenticatedErr resp).isSome = true ↔
      (resp.statusCode ≠ 200 ∨ containsSubstr resp.body expiredMarker = true) := by
  unfold ensureAuthenticatedErr
  by_cases h : resp.statusCode = 200 <;>
    by_cases h2 : containsSubstr resp.body expiredMarker <;>
      simp [h, h2]

/-- C7: the pipeline does not detect duplicate chapter filenames.  Two
chapters both named `dup.html`, with every per-chapter step succeeding, are
both processed: the run writes `OEBPS/dup.xhtml` twice (the second write
overwrites the first) and returns no error. -/
theorem c7_duplicate_filenames_not_detected :
    downloadChaptersRun (fun _ => .ok ())
        [mkChapter (("A").data) (("dup.html").data),
         mkChapter (("B").data) (("dup.html").data)] =
      ([("dup.xhtml").data, ("dup.xhtml").data], none) := by
  decide

/-- C8 counterexample: a title containing a comma is truncated at the comma,
so the book directory is not named `<sanitized(title)> (<bookID>)`: for
title `Go, in Action` and book id `42` the code yields `Go (42)`. -/
theorem c8_comma_truncation_counterexample :
    bookDirName (("42").data) (("Go, in Action").data) ≠
      escapeDirname (("Go, in Action").data) ++ sSpaceOpenParen ++
        ("42").data ++ sCloseParen := by
  decide

/-- C8 (amended): the book root directory is named
`<sanitized(title) cut at its first comma> (<bookID>)`, the book id standing
in for an empty title; in particular, whenever the sanitized title contains
no comma the name is exactly `<sanitized(title)> (<bookID>)`. -/
theorem c8_book_dirname (bookID title : Str) :
    bookDirName bookID title =
      ((if escapeDirname title = [] then bookID else escapeDirname title).takeWhile
          (fun c => ¬ (c = ',')) ++ sSpaceOpenParen ++ bookID ++ sCloseParen) ∧
    (escapeDirname title ≠ [] → (',' ∈ escapeDirname title → False) →
      bookDirName bookID title =
        escapeDirname title ++ sSpaceOpenParen ++ bookID ++ sCloseParen) := by
  constructor
  · rfl
  · intro h1 h2
    show (let t := escapeDirname title
          let t2 := if t = [] then bookID else t
          t2.takeWhile (fun c => ¬ (c = ',')) ++ sSpaceOpenParen ++ bookID ++
            sCloseParen) = _
    simp only [if_neg h1]
    rw [takeWhile_of_all _ (escapeDirname title)
      (fun c hc => by simp; exact fun he => h2 (he ▸ hc))]

/-- C8 witness: for book id `42` and the comma-free title `GoBook` the
directory name is `GoBook (42)`, i.e. `<sanitized(title)> (<bookID>)`. -/
theorem c8_book_dirname_witness :
    escapeDirname (("GoBook").data) ≠ [] ∧
    bookDirName (("42").data) (("GoBook").data) =
      escapeDirname (("GoBook").data) ++ sSpaceOpenParen ++ ("42").data ++
        sCloseParen :=
  ⟨by decide,
   (c8_book_dirname (("42").data) (("GoBook").data)).2 (by decide) (by decide)⟩

/-- C9: the `<style type="text/css">` block of every emitted chapter page is
exactly `base_style` when Kindle mode is on, and `base_style` with the
word-wrap/overflow ruleset appended when Kindle mode is off — the extra
rules appear only when Kindle mode is off. -/
theorem c9_kindle_style_inversion (pageCSS xhtml : Str) :
    newParserStyle true = baseStyleCSSs ∧
    newParserStyle false = baseStyleCSSs ++ kindleCSSs ∧
    chapterPageHTML true pageCSS xhtml =
      tplHead ++ pageCSS ++ tplStyleOpen ++ baseStyleCSSs ++ tplStyleClose ++
        xhtml ++ tplTail ∧
    chapterPageHTML false pageCSS xhtml =
      tplHead ++ pageCSS ++ tplStyleOpen ++ (baseStyleCSSs ++ kindleCSSs) ++
        tplStyleClose ++ xhtml ++ tplTail :=
  ⟨rfl, rfl, rfl, rfl⟩

/-- One-step unfolding of `getBookChapters` over a cons cell. -/
lemma getBookChapters_cons (pg : ChapterPage) (rest : List ChapterPage) :
    getBookChapters (pg :: rest) =
      if pg.results = [] then .error errNoChapters
      else
        let promoted := pg.results.filter isCoverChapter ++
          pg.results.filter (fun ch => !isCoverChapter ch)
        if hasNextCursor pg then
          match getBookChapters rest with
          | .error e => .error e
          | .ok tail => .ok (promoted ++ tail)
        else .ok promoted := rfl

/-- C10: whenever any fetched chapter-index page — reached through the chain
of non-empty `next` cursors, not only the first — has an empty `results`
array, the whole call fails with the chapters error and no partial chapter
list is returned. -/
theorem c10_empty_page_aborts (pre : List ChapterPage) (pg : ChapterPage)
    (post : List ChapterPage) (h1 : ∀ q ∈ pre, q.results ≠ [])
    (h2 : ∀ q ∈ pre, hasNextCursor q = true) (h3 : pg.results = []) :
    getBookChapters (pre ++ pg :: post) = .error errNoChapters := by
  induction pre with
  | nil => simp [getBookChapters, h3]
  | cons q rest ih =>
    have hq1 : q.results ≠ [] := h1 q (by simp)
    have hq2 : hasNextCursor q = true := h2 q (by simp)
    have ih2 := ih (fun r hr => h1 r (by simp [hr]))
      (fun r hr => h2 r (by simp [hr]))
    simp [getBookChapters, hq1, hq2, ih2]

/-- C10 witness: a first page with one chapter and a live `next` cursor
followed by a second page with zero results makes the whole call fail. -/
theorem c10_empty_page_aborts_witness :
    getBookChapters
        [⟨[mkChapter (("A").data) (("a.html").data)], some (("next").data)⟩,
         ⟨[], none⟩] =
      .error errNoChapters :=
  c10_empty_page_aborts
    [⟨[mkChapter (("A").data) (("a.html").data)], some (("next").data)⟩]
    ⟨[], none⟩ [] (by decide) (by decide) rfl

/-- C4: over pages that all have results and are chained by `next` cursors,
the emitted chapter list is, page by page in order, the page's cover
chapters (filename or title containing `cover` case-insensitively) in their
original relative order followed by the page's remaining chapters in their
original order — the reorder never crosses a page boundary. -/
theorem c4_per_page_cover_promotion (pages : List ChapterPage)
    (h1 : ∀ pg ∈ pages, pg.results ≠ []) (h2 : allNextSet pages = true) :
    getBookChapters pages =
      .ok ((pages.map (fun pg =>
        pg.results.filter isCoverChapter ++
          pg.results.filter (fun ch => !isCoverChapter ch))).flatten) := by
  induction pages with
  | nil => simp [getBookChapters]
  | cons pg rest ih =>
    have hne : pg.results ≠ [] := h1 pg (by simp)
    cases rest with
    | nil =>
      by_cases hn : hasNextCursor pg <;>
        simp [getBookChapters, hne, hn]
    | cons r rs =>
      rw [allNextSet, Bool.and_eq_true, Bool.or_eq_true] at h2
      have hn : hasNextCursor pg = true := by
        rcases h2.1 with h | h
        · simp [List.isEmpty] at h
        · exact h
      have ih2 := ih (fun q hq => h1 q (by simp [hq])) h2.2
      rw [getBookChapters_cons, ih2]
      simp [hne, hn]

/-- C4 witness (scenario S5): pages `[a, b(cover)]` then `[c(cover), d]`
come out as `[b, a, c, d]`. -/
theorem c4_per_page_cover_promotion_witness :
    (∀ pg ∈ s5Pages, pg.results ≠ []) ∧
    getBookChapters s5Pages =
      .ok [mkChapter (("B").data) (("b-cover.html").data),
           mkChapter (("Intro A").data) (("a.html").data),
           mkChapter (("Cover c").data) (("c.html").data),
           mkChapter (("D").data) (("d.html").data)] := by
  refine ⟨by decide, ?_⟩
  rw [c4_per_page_cover_promotion s5Pages (by decide) (by decide)]
  decide

/-- C6 counterexample: `600w-proxy` is not one of the size tokens the code
substitutes — the recognised set stops at `1200w, 800w, 600w, 500w, 400w,
200w, large, medium, small, thumb`. -/
theorem c6_proxy_token_counterexample :
    ¬ (("600w-proxy").data ∈ sizeVariants) := by
  decide

/-- C6 (amended): cover-variant generation behaves exactly as the claim's
token list (including `600w-proxy`) prescribes — any URL containing
`600w-proxy` also contains `600w`, so the missing token is unobservable —
with the first matched token replaced everywhere by `600w` and the
substituted URL tried before the original, and with the no-token fallback
appending `/600w/` to the URL stripped of one trailing slash.  Scenario S3:
`https://cdn/x/200w/cover.jpg` yields the `600w` variant first, then the
original. -/
theorem c6_cover_variants :
    (∀ url : Str, generateCoverURLVariants url = claimCoverVariants url) ∧
    generateCoverURLVariants (("https://cdn/x/200w/cover.jpg").data) =
      [("https://cdn/x/600w/cover.jpg").data,
       ("https://cdn/x/200w/cover.jpg").data] := by
  refine ⟨?_, by decide⟩
  intro url
  have hp : isPrefixOfL (("600w").data) (("600w-proxy").data) = true := by
    decide
  unfold generateCoverURLVariants claimCoverVariants
  by_cases h12 : containsSubstr url (("1200w").data) = true
  · simp [sizeVariants, claimSizeTokens, List.find?, h12]
  · by_cases h8 : containsSubstr url (("800w").data) = true
    · simp [sizeVariants, claimSizeTokens, List.find?, h12, h8]
    · by_cases h6 : containsSubstr url (("600w").data) = true
      · simp [sizeVariants, claimSizeTokens, List.find?, h12, h8, h6]
      · have hpx : containsSubstr url (("600w-proxy").data) = false := by
          cases hq : containsSubstr url (("600w-proxy").data) with
          | false => rfl
          | true =>
            exact absurd (containsSubstr_mono url (("600w").data)
              (("600w-proxy").data) hp hq) h6
        simp [sizeVariants, claimSizeTokens, List.find?, h12, h8, h6, hpx]

/-- C3 counterexample: the rewrite does not return the attribute value
unchanged in the pass-through cases — it returns the trimmed value.  For
`" mailto:a@b"` the trimmed value starts with `mailto:`, yet the function
returns `"mailto:a@b"`, which differs from the input. -/
theorem c3_untrimmed_counterexample :
    isPrefixOfL sMailto (trimSpace ((" mailto:a@b").data)) = true ∧
    linkReplace urlIsAbsSample urlParseSample ((" mailto:a@b").data) =
      ("mailto:a@b").data ∧
    (" mailto:a@b").data ≠ ("mailto:a@b").data := by
  decide

/-- C3 (amended): for every attribute value the rewrite returns exactly what
the claim's rule prescribes applied to the **trimmed** value (so the
pass-through cases return the trimmed value, not the original): trimmed
empty, `mailto:`-prefixed or absolute values come back as the trimmed
value; relative values that lowercased contain `cover`, `images` or
`graphics` or end in an image extension become `Images/<basename>` with the
stated fallbacks; all other relative values get `.html` replaced by
`.xhtml`.  The scenario S1 inputs behave as the claim lists. -/
theorem c3_link_rewrite_trimmed :
    (∀ (isAbs : Str → Bool) (parsePath : Str → Option Str) (L : Str),
      linkReplace isAbs parsePath L =
        claimLinkRewrite isAbs parsePath (trimSpace L)) ∧
    linkReplace urlIsAbsSample urlParseSample (("images/fig-01.png").data) =
      ("Images/fig-01.png").data ∧
    linkReplace urlIsAbsSample urlParseSample (("intro.html").data) =
      ("intro.xhtml").data ∧
    linkReplace urlIsAbsSample urlParseSample (("https://cdn.example/a.css").data) =
      ("https://cdn.example/a.css").data ∧
    linkReplace urlIsAbsSample urlParseSample (("mailto:a@b").data) =
      ("mailto:a@b").data := by
  refine ⟨?_, by decide, by decide, by decide, by decide⟩
  intro isAbs pp L
  unfold linkReplace claimLinkRewrite
  by_cases h1 : trimSpace L = []
  · simp [h1]
  · by_cases h2 : isPrefixOfL sMailto (trimSpace L) = true
    · simp [h1, h2]
    · by_cases h3 : isAbs (trimSpace L) = true
      · simp [h1, h2, h3]
      · simp [h1, h2, h3]

/-- C2: after a chapter is processed, `downloadAssets` fetches only the
chapter's images — every destination it writes lies under `OEBPS/Images/`,
and a chapter that registers a stylesheet URL but has no image triggers no
download at all: no code path fetches the registry's URLs or writes any
`OEBPS/Styles/Style{NN}.css` file. -/
theorem c2_assets_never_fetch_stylesheets :
    (∀ (resolve : Str → Str → Str) (parsePath : Str → Option Str)
        (siteURL bookID : Str) (ch : Chapter),
      (downloadAssetDests resolve parsePath siteURL bookID ch).all
        (fun d => isPrefixOfL (("OEBPS/Images/").data) d) = true) ∧
    downloadAssetDests (fun b r => b ++ r) (fun _ => none) (("site").data)
      (("42").data) chWithStylesheet = [] ∧
    chapterCSSList [("https://x/a.css").data] = [("https://x/a.css").data] := by
  refine ⟨?_, by decide, by decide⟩
  intro resolve pp site id ch
  unfold downloadAssetDests
  apply all_of_filterMap
  intro img d hf
  by_cases h1 : resolveImageURL resolve site id ch img = []
  · simp [h1] at hf
  · by_cases h2 :
      filenameFromURL pp (resolveImageURL resolve site id ch img) = []
    · simp [h1, h2] at hf
    · simp [h1, h2] at hf
      rw [← hf]
      exact isPrefixOfL_append _ _
